import Mathlib

/-!
# Device support of the Greensprings Unidig digital I/O module

A shallow embedding of `src/ipUnidigApp/src/devIpUnidig.cc`: the longin device
support (`LiIpUnidig`), the binary input support (`bi_init_record`,
`bi_ioint_info`, `bi_read`) and the binary output support (`BoIpUnidig`).

Records are plain structures and every routine is a function from the state it
reads to the state it leaves.  Calls that leave the file (`sendReply`,
`scanIoRequest`, `delete`, `DevMpf::connectIO`, `epicsPrintf`) are appended, in
program order, to a log of `Event`s.  The debug macros (`LIDEBUG`, `BIDEBUG`,
`BODEBUG`) only print and are left out.
-/

namespace IpUnidig

/-! ## Constants and macros of EPICS base -/

/-- Alarm status `READ_ALARM` of EPICS `alarm.h`. -/
def READ_ALARM : Nat := 1

/-- Alarm severity `INVALID_ALARM` of EPICS `alarm.h`, the highest severity. -/
def INVALID_ALARM : Nat := 3

/-- Link type `VME_IO` of EPICS `link.h`. -/
def VME_IO : Nat := 2

/-- The fields of `dbCommon` that the device support touches.  `stat`/`sevr` are
the published alarm of the record, `nsta`/`nsev` the alarm that is being
collected while the record processes. -/
structure DbCommon where
  pact : Bool
  udf : Nat
  stat : Nat
  sevr : Nat
  nsta : Nat
  nsev : Nat
deriving DecidableEq, Repr

/-- The EPICS base macro `recGblSetSevr` (`recGbl.h`; EPICS base is not part of
this repository):
`((PREC)->nsev<(NSEV)) ? ((PREC)->nsta=(NSTA),(PREC)->nsev=(NSEV),TRUE) : FALSE`.
It raises the pending alarm when the new severity is higher and never writes
`stat`/`sevr`. -/
def recGblSetSevr (pr : DbCommon) (nsta nsev : Nat) : DbCommon :=
  if pr.nsev < nsev then { pr with nsta := nsta, nsev := nsev } else pr

/-- The EPICS base routine `recGblResetAlarms` (`recGbl.c`; not part of this
repository), which record support runs at the end of processing: the pending
alarm becomes the published one and the pending alarm is reset. -/
def recGblResetAlarms (pr : DbCommon) : DbCommon :=
  { pr with stat := pr.nsta, sevr := pr.nsev, nsta := 0, nsev := 0 }

/-! ## Messages and the environment -/

/-- The fields of MPF's `Int32Message` that the device support uses. -/
structure Int32Message where
  cmd : Int
  address : Int
  value : Int
  status : Int
deriving DecidableEq, Repr

/-- MPF's `ConnectMessage`, of which only `status` is read. -/
structure ConnectMessage where
  status : Int
deriving DecidableEq, Repr

/-- What the file takes from headers that are not among the sources: the command
codes of `ipUnidig.h`, `connectYes` of MPF, the message that `new Int32Message`
yields, and the bits a shift `1 << bit` leaves when `bit` is outside `0..31`
(undefined in C++). -/
structure Env where
  cmdStartMonitor : Int
  cmdSetBits : Int
  cmdClearBits : Int
  connectYes : Int
  newInt32Message : Int32Message
  shiftOutOfRange : Int → Nat

/-- Conversion of an `int` or `long` to `UINT32`. -/
def toUInt32 (x : Int) : Nat := (x % 4294967296).toNat

/-- Conversion of a `UINT32` to `int`. -/
def toInt32 (n : Nat) : Int :=
  if n % 4294967296 < 2147483648 then (n % 4294967296 : Nat) else (n % 4294967296 : Nat) - 4294967296

/-- The expression `1 << bit` stored in a `UINT32`. -/
def shl1 (E : Env) (bit : Int) : Nat :=
  if 0 ≤ bit ∧ bit < 32 then (2 ^ bit.toNat) % 4294967296 else E.shiftOutOfRange bit % 4294967296

/-! ## Records -/

/-- The `DevMpf` part of a `LiIpUnidig` object that this file reads: the I/O
event scan list (`NULL` is `none`). -/
structure LiIpUnidig where
  ioscanpvt : Option Nat
deriving DecidableEq, Repr

/-- The longin record: `dbCommon`, `val`, and `dpvt` (the `LiIpUnidig` object). -/
structure LonginRecord where
  common : DbCommon
  val : Int
  dpvt : Option LiIpUnidig
deriving DecidableEq, Repr

/-- The `vmeio` member of a link. -/
structure Vmeio where
  card : Int
  signal : Int
  parm : String
deriving DecidableEq, Repr

/-- A `DBLINK`: its type and, for `VME_IO`, the `vmeio` value. -/
structure Link where
  type : Nat
  value : Vmeio
deriving DecidableEq, Repr

/-- Class `DevPvt`: the mask of the bit and the address of the longin record. -/
structure DevPvt where
  mask : Nat
  pli : Nat
deriving DecidableEq, Repr

/-- The bi record. -/
structure BiRecord where
  common : DbCommon
  inp : Link
  rval : Nat
  dpvt : Option DevPvt
deriving DecidableEq, Repr

/-- The bo record. -/
structure BoRecord where
  common : DbCommon
  out : Link
  val : Nat
deriving DecidableEq, Repr

/-- Class `BoIpUnidig`: its only member of its own is `mask`. -/
structure BoIpUnidig where
  mask : Nat
deriving DecidableEq, Repr

/-- The error texts the file prints with `epicsPrintf`. -/
inductive Diag where
  | illegalInpField
  | cantLocateLongin
  | illegalInpBit (bit : Int)
  | illegalOutSignal (bit : Int)
deriving DecidableEq, Repr

/-- Calls that leave the file, in program order.  `scanIoRequest` also keeps the
longin record as it stands at the moment of the call (ghost data, used to state
what a dependent can see when it is notified). -/
inductive Event where
  | sendReply (m : Int32Message)
  | scanIoRequest (ioscanpvt : Option Nat) (seen : LonginRecord)
  | deleteMessage (m : Int32Message)
  | baseConnectIO (m : ConnectMessage)
  | epicsPrintf (d : Diag)
deriving DecidableEq, Repr

/-- Longin records by address: what a `longinRecord*` points at. -/
abbrev Memory := Nat → LonginRecord

/-! ## longin device support -/

/-- `LiIpUnidig::startIO`: nothing to do. -/
def LiIpUnidig.startIO (_self : LiIpUnidig) (_pr : LonginRecord) : Int := 0

/-- `LiIpUnidig::completeIO`.  Returns `rc`, the record and the log. -/
def LiIpUnidig.completeIO (self : LiIpUnidig) (li : LonginRecord) (pim : Int32Message)
    (log : List Event) : Int × LonginRecord × List Event :=
  let rc := pim.status
  let li :=
    if rc = 0 then
      let li := { li with val := pim.value }
      { li with common := { li.common with udf := 0 } }
    else
      { li with common := recGblSetSevr li.common READ_ALARM INVALID_ALARM }
  let log := log ++ [Event.scanIoRequest self.ioscanpvt li]
  let log := log ++ [Event.deleteMessage pim]
  (rc, li, log)

/-- `LiIpUnidig::connectIO`. -/
def LiIpUnidig.connectIO (E : Env) (_self : LiIpUnidig) (message : ConnectMessage)
    (log : List Event) : List Event :=
  let log :=
    if message.status ≠ E.connectYes then log
    else
      let psend := E.newInt32Message
      let psend := { psend with cmd := E.cmdStartMonitor }
      log ++ [Event.sendReply psend]
  log ++ [Event.baseConnectIO message]

/-! ## bi device support -/

/-- `bi_init_record`.  `dbNameToAddr` resolves a record name to the address of
the record (`none` when it reports failure).  Returns the status, the record
and the log. -/
def bi_init_record (dbNameToAddr : String → Option Nat) (pr : BiRecord) (log : List Event) :
    Int × BiRecord × List Event :=
  let plink := pr.inp
  if plink.type ≠ VME_IO then
    (0, { pr with common := { pr.common with pact := true } },
      log ++ [Event.epicsPrintf Diag.illegalInpField])
  else
    let io := plink.value
    let pv := io.parm
    match dbNameToAddr pv with
    | none =>
      (0, { pr with common := { pr.common with pact := true } },
        log ++ [Event.epicsPrintf Diag.cantLocateLongin])
    | some pli =>
      let bit := io.signal
      if bit < 0 ∨ bit > 23 then
        (0, { pr with common := { pr.common with pact := true } },
          log ++ [Event.epicsPrintf (Diag.illegalInpBit bit)])
      else
        let pvt : DevPvt := { mask := 2 ^ bit.toNat, pli := pli }
        (0, { pr with dpvt := some pvt }, log)

/-- `bi_ioint_info`.  `iopvt` is the scan list the caller holds for the record;
the result is the status and the scan list after the call.  `none` stands for
the dereference of a `NULL` `pli->dpvt`. -/
def bi_ioint_info (mem : Memory) (_cmd : Int) (pr : BiRecord) (iopvt : Option Nat) :
    Option (Int × Option Nat) :=
  match pr.dpvt with
  | none => some (0, iopvt)
  | some pvt =>
    match (mem pvt.pli).dpvt with
    | none => none
    | some pLiIpUnidig =>
      match pLiIpUnidig.ioscanpvt with
      | none => some (0, iopvt)
      | some s => some (0, some s)

/-- `bi_read`. -/
def bi_read (mem : Memory) (pr : BiRecord) : Int × BiRecord :=
  match pr.dpvt with
  | none => (0, pr)
  | some pvt =>
    let pli := mem pvt.pli
    let pr := { pr with rval := if toUInt32 pli.val &&& pvt.mask ≠ 0 then 1 else 0 }
    let pr := { pr with common := recGblSetSevr pr.common pli.common.stat pli.common.sevr }
    let pr := { pr with common := { pr.common with udf := 0 } }
    (0, pr)

/-! ## bo device support -/

/-- The constructor `BoIpUnidig::BoIpUnidig` (the `DevMpf` base constructor is
not part of this repository and is not modelled).  It is named `construct`
because inside the namespace of the structure the name of the class is taken. -/
def BoIpUnidig.construct (E : Env) (l : Link) (log : List Event) : BoIpUnidig × List Event :=
  let io := l.value
  let bit := io.signal
  let log := if bit < 0 ∨ bit > 23 then log ++ [Event.epicsPrintf (Diag.illegalOutSignal bit)] else log
  ({ mask := shl1 E bit }, log)

/-- `BoIpUnidig::dev_init`. -/
def BoIpUnidig.dev_init (E : Env) (bo : BoRecord) (log : List Event) :
    Int × BoIpUnidig × List Event :=
  let r := BoIpUnidig.construct E bo.out log
  (0, r.1, r.2)

/-- `BoIpUnidig::startIO`.  `sendRc` is the status `sendReply` returns. -/
def BoIpUnidig.startIO (E : Env) (self : BoIpUnidig) (bo : BoRecord) (sendRc : Int)
    (log : List Event) : Int × List Event :=
  let pim := E.newInt32Message
  let pim := { pim with address := toInt32 self.mask }
  let pim := if bo.val = 0 then { pim with cmd := E.cmdClearBits } else { pim with cmd := E.cmdSetBits }
  (sendRc, log ++ [Event.sendReply pim])

/-- `BoIpUnidig::completeIO`.  Returns `rc`, the record and the log. -/
def BoIpUnidig.completeIO (_self : BoIpUnidig) (bo : BoRecord) (pim : Int32Message)
    (log : List Event) : Int × BoRecord × List Event :=
  let rc := pim.status
  let bo :=
    if rc = 0 then { bo with common := { bo.common with udf := 0 } }
    else { bo with common := recGblSetSevr bo.common READ_ALARM INVALID_ALARM }
  (rc, bo, log ++ [Event.deleteMessage pim])

/-! ## Sequences of deliveries -/

/-- Update completions delivered in order to one longin record: each one is
handled by `LiIpUnidig::completeIO` on the record and log the previous one left. -/
def LiIpUnidig.completeAll (self : LiIpUnidig) (li : LonginRecord) (ms : List Int32Message)
    (log : List Event) : LonginRecord × List Event :=
  ms.foldl (fun s m => ( LiIpUnidig.completeIO self s.1 m s.2).2) (li, log)

/-- Connection events delivered in order to `LiIpUnidig::connectIO`. -/
def LiIpUnidig.connectAll (E : Env) (self : LiIpUnidig) (ms : List ConnectMessage)
    (log : List Event) : List Event :=
  ms.foldl (fun l m => LiIpUnidig.connectIO E self m l) log

/-- The number of `sendReply` calls in a log whose message carries command `c`. -/
def sentWith (c : Int) : List Event → Nat
  | [] => 0
  | Event.sendReply m :: rest => (if m.cmd = c then 1 else 0) + sentWith c rest
  | _ :: rest => sentWith c rest

/-- The number of `sendReply` calls in a log. -/
def sends : List Event → Nat
  | [] => 0
  | Event.sendReply _ :: rest => 1 + sends rest
  | _ :: rest => sends rest

/-- The number of `scanIoRequest` calls in a log. -/
def scanRequests : List Event → Nat
  | [] => 0
  | Event.scanIoRequest _ _ :: rest => 1 + scanRequests rest
  | _ :: rest => scanRequests rest

/-- The number of Disconnected->Connected transitions in a sequence of
connection events, as the specification counts them: `connected` is the state
before the first event, and an event leaves the state Connected exactly when
its status is `connectYes`. -/
def transitions (E : Env) : Bool → List ConnectMessage → Nat
  | _, [] => 0
  | connected, m :: rest =>
    (if connected = false ∧ m.status = E.connectYes then 1 else 0)
      + transitions E (decide (m.status = E.connectYes)) rest

/-- The number of events of a sequence whose status is `connectYes`. -/
def connects (E : Env) : List ConnectMessage → Nat
  | [] => 0
  | m :: rest => (if m.status = E.connectYes then 1 else 0) + connects E rest

/-- A concrete environment for evaluating the routines: command codes 1, 2, 3,
`connectYes` 1, a zeroed new message. -/
def sampleEnv : Env :=
  { cmdStartMonitor := 3, cmdSetBits := 1, cmdClearBits := 2, connectYes := 1,
    newInt32Message := ⟨0, 0, 0, 0⟩, shiftOutOfRange := fun _ => 0 }

/-- A record header with no alarm, not active, defined. -/
def quietCommon : DbCommon := ⟨false, 0, 0, 0, 0, 0⟩

/-! ## Auxiliary facts -/

theorem and_two_pow_ne_zero_iff (v b : Nat) : v &&& 2 ^ b ≠ 0 ↔ v.testBit b = true := by
  constructor
  · intro h
    by_contra hb
    apply h
    apply Nat.eq_of_testBit_eq
    intro i
    simp only [Nat.testBit_and, Nat.zero_testBit, Nat.testBit_two_pow]
    by_cases hi : b = i
    · subst hi; simp [hb]
    · simp [hi]
  · intro h h0
    have h1 : (v &&& 2 ^ b).testBit b = true := by
      simp [Nat.testBit_and, Nat.testBit_two_pow_self, h]
    rw [h0] at h1
    simp at h1

theorem shiftRight_and_one_ne_zero_iff (v b : Nat) : (v >>> b) &&& 1 ≠ 0 ↔ v.testBit b = true := by
  rw [Nat.and_one_is_mod, Nat.testBit_to_div_mod, Nat.shiftRight_eq_div_pow]
  simp

theorem toUInt32_natCast (v : Nat) (hv : v < 4294967296) : toUInt32 (v : Int) = v := by
  unfold toUInt32
  omega

theorem completeIO_ok_val (self : LiIpUnidig) (li : LonginRecord) (m : Int32Message)
    (log : List Event) (h : m.status = 0) :
    ( LiIpUnidig.completeIO self li m log).2.1.val = m.value := by
  simp [LiIpUnidig.completeIO, h]

theorem completeAll_append (self : LiIpUnidig) (li : LonginRecord) (xs ys : List Int32Message)
    (log : List Event) :
    LiIpUnidig.completeAll self li (xs ++ ys) log =
      LiIpUnidig.completeAll self ( LiIpUnidig.completeAll self li xs log).1 ys
        ( LiIpUnidig.completeAll self li xs log).2 := by
  simp [LiIpUnidig.completeAll, List.foldl_append]

theorem sentWith_append (c : Int) (xs ys : List Event) :
    sentWith c (xs ++ ys) = sentWith c xs + sentWith c ys := by
  induction xs with
  | nil => simp [sentWith]
  | cons e rest ih =>
    cases e <;> simp [sentWith, ih, Nat.add_assoc]

theorem sends_append (xs ys : List Event) : sends (xs ++ ys) = sends xs + sends ys := by
  induction xs with
  | nil => simp [sends]
  | cons e rest ih =>
    cases e <;> simp [sends, ih, Nat.add_assoc]

theorem scanRequests_append (xs ys : List Event) :
    scanRequests (xs ++ ys) = scanRequests xs + scanRequests ys := by
  induction xs with
  | nil => simp [scanRequests]
  | cons e rest ih =>
    cases e <;> simp [scanRequests, ih, Nat.add_assoc]

theorem connectIO_sentWith (E : Env) (self : LiIpUnidig) (m : ConnectMessage) (log : List Event) :
    sentWith E.cmdStartMonitor ( LiIpUnidig.connectIO E self m log)
      = sentWith E.cmdStartMonitor log + (if m.status = E.connectYes then 1 else 0) := by
  by_cases h : m.status = E.connectYes
  · simp [LiIpUnidig.connectIO, h, sentWith_append, sentWith]
  · simp [LiIpUnidig.connectIO, h, sentWith_append, sentWith]

theorem connectIO_sends (E : Env) (self : LiIpUnidig) (m : ConnectMessage) (log : List Event) :
    sends ( LiIpUnidig.connectIO E self m log)
      = sends log + (if m.status = E.connectYes then 1 else 0) := by
  by_cases h : m.status = E.connectYes
  · simp [LiIpUnidig.connectIO, h, sends_append, sends]
  · simp [LiIpUnidig.connectIO, h, sends_append, sends]

theorem transitions_le_connects (E : Env) (ms : List ConnectMessage) (c : Bool) :
    transitions E c ms ≤ connects E ms := by
  induction ms generalizing c with
  | nil => simp [transitions, connects]
  | cons m rest ih =>
    simp only [transitions, connects]
    have := ih (decide (m.status = E.connectYes))
    split <;> split <;> simp_all
    all_goals omega

theorem shl1_of_le (E : Env) (b : Nat) (hb : b ≤ 23) : shl1 E (b : Int) = 1 <<< b := by
  interval_cases b <;> simp [shl1]

theorem toInt32_one_shiftLeft (b : Nat) (hb : b ≤ 23) :
    toInt32 (1 <<< b) = ((1 <<< b : Nat) : Int) := by
  interval_cases b <;> simp [toInt32]

/-! ## C1 -/

/-- C1: when every completion of a sequence has status OK (0) and the sequence
is applied in order by `LiIpUnidig::completeIO` to one longin record, the val of
the record after the completion at position `n` is exactly the value of that
completion, whatever the record, and so its val, was before. -/
theorem C1_val_after_nth_completion (self : LiIpUnidig) (li : LonginRecord)
    (ms : List Int32Message) (log : List Event) (hok : ∀ m ∈ ms, m.status = 0)
    (n : Nat) (hn : n < ms.length) :
    ( LiIpUnidig.completeAll self li (ms.take (n + 1)) log).1.val = (ms.get ⟨n, hn⟩).value := by
  have hget : ms[n]? = some (ms.get ⟨n, hn⟩) := by
    simp [List.getElem?_eq_getElem hn]
  rw [List.take_succ, hget, completeAll_append]
  simp only [Option.toList, LiIpUnidig.completeAll, List.foldl_cons, List.foldl_nil]
  exact completeIO_ok_val _ _ _ _ (hok _ (List.get_mem ms n hn))

/-- C1 at a concrete run: three OK completions on a record whose val was 0xFFFFFF. -/
theorem C1_val_after_nth_completion_witness :
    ( LiIpUnidig.completeAll ⟨some 1⟩ ⟨⟨false, 1, 0, 0, 0, 0⟩, 16777215, none⟩
        (([⟨0, 0, 5, 0⟩, ⟨0, 0, 4, 0⟩, ⟨0, 0, 9, 0⟩] : List Int32Message).take (1 + 1)) []).1.val
      = 4 :=
  C1_val_after_nth_completion ⟨some 1⟩ ⟨⟨false, 1, 0, 0, 0, 0⟩, 16777215, none⟩
    [⟨0, 0, 5, 0⟩, ⟨0, 0, 4, 0⟩, ⟨0, 0, 9, 0⟩] [] (by decide) 1 (by decide)

/-! ## C2 -/

/-- C2: for a bit index `b` in 0..23 and a 24-bit register value `v`, a bi record
whose INP is a VME_IO link with signal `b` and whose parm resolves to a longin
record with val `v` gets from `bi_init_record` followed by `bi_read` the raw
value 1 when bit `b` of `v` is set, that is `(v >> b) & 1 != 0`, and 0 otherwise. -/
theorem C2_bi_read_is_bit (dbNameToAddr : String → Option Nat) (mem : Memory) (pr : BiRecord)
    (log : List Event) (addr b v : Nat) (hb : b ≤ 23) (hv : v < 2 ^ 24)
    (htype : pr.inp.type = VME_IO) (hsig : pr.inp.value.signal = (b : Int))
    (hres : dbNameToAddr pr.inp.value.parm = some addr) (hval : (mem addr).val = (v : Int)) :
    (bi_read mem (bi_init_record dbNameToAddr pr log).2.1).2.rval
      = if (v >>> b) &&& 1 ≠ 0 then 1 else 0 := by
  have hrange : ¬ (((b : Int) < 0) ∨ ((b : Int) > 23)) := by omega
  have hu : toUInt32 (v : Int) = v := toUInt32_natCast v (by omega)
  have hiff : (v &&& 2 ^ b ≠ 0) ↔ ((v >>> b) &&& 1 ≠ 0) := by
    rw [and_two_pow_ne_zero_iff, shiftRight_and_one_ne_zero_iff]
  simp only [bi_init_record, htype, hsig, hres, hrange, bi_read, hval, hu, ne_eq,
    not_true_eq_false, if_false, Int.toNat_ofNat]
  exact if_congr hiff rfl rfl

/-- C2 at the register value 0x000005: bit 0 reads 1, bit 1 reads 0, bit 2 reads 1. -/
theorem C2_bi_read_is_bit_witness :
    (bi_read (fun _ => ⟨quietCommon, 5, none⟩)
        (bi_init_record (fun _ => some 7) ⟨quietCommon, ⟨ VME_IO, ⟨0, 0, "Unidig1"⟩⟩, 0, none⟩ []).2.1).2.rval = 1
    ∧ (bi_read (fun _ => ⟨quietCommon, 5, none⟩)
        (bi_init_record (fun _ => some 7) ⟨quietCommon, ⟨ VME_IO, ⟨0, 1, "Unidig1"⟩⟩, 0, none⟩ []).2.1).2.rval = 0
    ∧ (bi_read (fun _ => ⟨quietCommon, 5, none⟩)
        (bi_init_record (fun _ => some 7) ⟨quietCommon, ⟨ VME_IO, ⟨0, 2, "Unidig1"⟩⟩, 0, none⟩ []).2.1).2.rval = 1 :=
  ⟨(C2_bi_read_is_bit (fun _ => some 7) (fun _ => ⟨quietCommon, 5, none⟩)
      ⟨quietCommon, ⟨ VME_IO, ⟨0, 0, "Unidig1"⟩⟩, 0, none⟩ [] 7 0 5 (by decide) (by decide)
      rfl rfl rfl rfl).trans (by decide),
   (C2_bi_read_is_bit (fun _ => some 7) (fun _ => ⟨quietCommon, 5, none⟩)
      ⟨quietCommon, ⟨ VME_IO, ⟨0, 1, "Unidig1"⟩⟩, 0, none⟩ [] 7 1 5 (by decide) (by decide)
      rfl rfl rfl rfl).trans (by decide),
   (C2_bi_read_is_bit (fun _ => some 7) (fun _ => ⟨quietCommon, 5, none⟩)
      ⟨quietCommon, ⟨ VME_IO, ⟨0, 2, "Unidig1"⟩⟩, 0, none⟩ [] 7 2 5 (by decide) (by decide)
      rfl rfl rfl rfl).trans (by decide)⟩

/-! ## C3 -/

/-- C3, as stated, fails.  A longin record without alarm receives a completion
with status 1.  After `LiIpUnidig::completeIO` its published alarm
(`stat`, `sevr`), the pair `bi_read` copies, is still (0, 0), and a bi record
on that owner that reads next keeps all its alarm fields at 0.  Moreover, when
the owner already holds a pending alarm of severity INVALID_ALARM with status 14
(LINK_ALARM), the pending status stays 14: the owner's alarm does not become
(READ_ALARM, INVALID_ALARM), before or after record support publishes it. -/
theorem C3_counterexample :
    (( LiIpUnidig.completeIO ⟨some 1⟩ ⟨quietCommon, 5, none⟩ ⟨0, 0, 0, 1⟩ []).2.1.common.stat,
      ( LiIpUnidig.completeIO ⟨some 1⟩ ⟨quietCommon, 5, none⟩ ⟨0, 0, 0, 1⟩ []).2.1.common.sevr)
        ≠ (READ_ALARM, INVALID_ALARM)
    ∧ (bi_read (fun _ => ( LiIpUnidig.completeIO ⟨some 1⟩ ⟨quietCommon, 5, none⟩ ⟨0, 0, 0, 1⟩ []).2.1)
        ⟨quietCommon, ⟨ VME_IO, ⟨0, 0, "Unidig1"⟩⟩, 0, some ⟨1, 7⟩⟩).2.common = quietCommon
    ∧ ( LiIpUnidig.completeIO ⟨some 1⟩ ⟨⟨false, 0, 0, 0, 14, 3⟩, 5, none⟩ ⟨0, 0, 0, 1⟩ []).2.1.common.nsta
        = 14
    ∧ (recGblResetAlarms
        ( LiIpUnidig.completeIO ⟨some 1⟩ ⟨⟨false, 0, 0, 0, 14, 3⟩, 5, none⟩ ⟨0, 0, 0, 1⟩ []).2.1.common).stat
        = 14 := by
  decide

/-- C3, amended: for every longin record and every completion with status other
than 0, `LiIpUnidig::completeIO` leaves val and the published alarm
(`stat`, `sevr`) as they were and applies `recGblSetSevr` with
(READ_ALARM, INVALID_ALARM), so that the pending alarm (`nsta`, `nsev`) is that
pair whenever the pending severity was below INVALID_ALARM.  `bi_read` applies
`recGblSetSevr` to the bi record with the owner's published (`stat`, `sevr`)
verbatim.  Hence, once record support has published the owner's pending alarm
(`recGblResetAlarms`), a bi record on that owner whose pending severity is below
INVALID_ALARM has exactly (READ_ALARM, INVALID_ALARM) pending after `bi_read`. -/
theorem C3_alarm_raised_then_copied (self : LiIpUnidig) (li : LonginRecord) (pim : Int32Message)
    (log : List Event) (mem : Memory) (bi : BiRecord) (pvt : DevPvt)
    (hst : pim.status ≠ 0) (hpvt : bi.dpvt = some pvt) :
    ( LiIpUnidig.completeIO self li pim log).2.1.val = li.val
    ∧ ( LiIpUnidig.completeIO self li pim log).2.1.common.stat = li.common.stat
    ∧ ( LiIpUnidig.completeIO self li pim log).2.1.common.sevr = li.common.sevr
    ∧ ( LiIpUnidig.completeIO self li pim log).2.1.common
        = recGblSetSevr li.common READ_ALARM INVALID_ALARM
    ∧ (li.common.nsev < INVALID_ALARM →
        ( LiIpUnidig.completeIO self li pim log).2.1.common.nsta = READ_ALARM
        ∧ ( LiIpUnidig.completeIO self li pim log).2.1.common.nsev = INVALID_ALARM)
    ∧ (bi_read mem bi).2.common
        = { recGblSetSevr bi.common (mem pvt.pli).common.stat (mem pvt.pli).common.sevr
            with udf := 0 }
    ∧ (li.common.nsev < INVALID_ALARM → bi.common.nsev < INVALID_ALARM →
        mem pvt.pli = { ( LiIpUnidig.completeIO self li pim log).2.1 with
          common := recGblResetAlarms ( LiIpUnidig.completeIO self li pim log).2.1.common } →
        (bi_read mem bi).2.common.nsta = READ_ALARM
        ∧ (bi_read mem bi).2.common.nsev = INVALID_ALARM) := by
  have hc : ( LiIpUnidig.completeIO self li pim log).2.1
      = { li with common := recGblSetSevr li.common READ_ALARM INVALID_ALARM } := by
    simp [LiIpUnidig.completeIO, hst]
  have hb : (bi_read mem bi).2.common
      = { recGblSetSevr bi.common (mem pvt.pli).common.stat (mem pvt.pli).common.sevr
          with udf := 0 } := by
    simp [bi_read, hpvt]
  refine ⟨by rw [hc], ?_, ?_, by rw [hc], ?_, hb, ?_⟩
  · rw [hc]; simp only [recGblSetSevr]; split <;> rfl
  · rw [hc]; simp only [recGblSetSevr]; split <;> rfl
  · intro h
    rw [hc]
    simp [recGblSetSevr, h]
  · intro h hbi hmem
    rw [hb, hmem, hc]
    simp [recGblSetSevr, recGblResetAlarms, h, hbi]

/-- C3 amended, at a concrete run: a failed completion on a quiet owner, the
alarm published, then a bi record reading. -/
theorem C3_alarm_raised_then_copied_witness :
    (bi_read (fun _ => ⟨⟨false, 0, 1, 3, 0, 0⟩, 5, none⟩)
        ⟨quietCommon, ⟨ VME_IO, ⟨0, 0, "Unidig1"⟩⟩, 0, some ⟨1, 7⟩⟩).2.common.nsta = READ_ALARM
    ∧ (bi_read (fun _ => ⟨⟨false, 0, 1, 3, 0, 0⟩, 5, none⟩)
        ⟨quietCommon, ⟨ VME_IO, ⟨0, 0, "Unidig1"⟩⟩, 0, some ⟨1, 7⟩⟩).2.common.nsev = INVALID_ALARM :=
  (C3_alarm_raised_then_copied ⟨some 1⟩ ⟨quietCommon, 5, none⟩ ⟨0, 0, 0, 1⟩ []
    (fun _ => ⟨⟨false, 0, 1, 3, 0, 0⟩, 5, none⟩)
    ⟨quietCommon, ⟨ VME_IO, ⟨0, 0, "Unidig1"⟩⟩, 0, some ⟨1, 7⟩⟩ ⟨1, 7⟩
    (by decide) rfl).2.2.2.2.2.2 (by decide) (by decide) (by decide)

/-! ## C4 -/

/-- C4, as stated, fails.  Two connect events in a row, starting from
Disconnected, hold one Disconnected->Connected transition, yet
`LiIpUnidig::connectIO` sends two `cmdStartMonitor` messages: it also sends one
for the connect event received while already Connected. -/
theorem C4_counterexample :
    transitions sampleEnv false [⟨1⟩, ⟨1⟩] = 1
    ∧ sentWith sampleEnv.cmdStartMonitor ( LiIpUnidig.connectAll sampleEnv ⟨some 1⟩ [⟨1⟩, ⟨1⟩] []) = 2 := by
  decide

/-- C4, amended: for every sequence of connection events delivered to
`LiIpUnidig::connectIO`, the number of `cmdStartMonitor` messages sent equals
the number of events whose status is `connectYes`, one for each of them whatever
came before and none for any other event; no other message is sent, and the
count is never below the number of Disconnected->Connected transitions. -/
theorem C4_one_start_monitor_per_connect_event (E : Env) (self : LiIpUnidig)
    (ms : List ConnectMessage) (log : List Event) :
    sentWith E.cmdStartMonitor ( LiIpUnidig.connectAll E self ms log)
      = sentWith E.cmdStartMonitor log + connects E ms
    ∧ sends ( LiIpUnidig.connectAll E self ms log) = sends log + connects E ms
    ∧ transitions E false ms ≤ connects E ms := by
  refine ⟨?_, ?_, transitions_le_connects E ms false⟩
  · induction ms generalizing log with
    | nil => simp [LiIpUnidig.connectAll, connects]
    | cons m rest ih =>
      have h := ih ( LiIpUnidig.connectIO E self m log)
      simp only [LiIpUnidig.connectAll, List.foldl_cons] at h ⊢
      rw [h, connectIO_sentWith]
      simp only [connects]
      omega
  · induction ms generalizing log with
    | nil => simp [LiIpUnidig.connectAll, connects]
    | cons m rest ih =>
      have h := ih ( LiIpUnidig.connectIO E self m log)
      simp only [LiIpUnidig.connectAll, List.foldl_cons] at h ⊢
      rw [h, connectIO_sends]
      simp only [connects]
      omega

/-! ## C5 -/

/-- C5, as stated, fails.  A writer with mask 0x4 on a record with val 1 issues
a command and, before any completion, `BoIpUnidig::startIO` is called again: the
second call is not rejected, it returns the status of `sendReply` and the log
holds two `sendReply` calls. -/
theorem C5_counterexample :
    sends ( BoIpUnidig.startIO sampleEnv ⟨4⟩ ⟨quietCommon, ⟨ VME_IO, ⟨0, 2, "Unidig1"⟩⟩, 1⟩ 0 []).2 = 1
    ∧ BoIpUnidig.startIO sampleEnv ⟨4⟩ ⟨quietCommon, ⟨ VME_IO, ⟨0, 2, "Unidig1"⟩⟩, 1⟩ 0
        ( BoIpUnidig.startIO sampleEnv ⟨4⟩ ⟨quietCommon, ⟨ VME_IO, ⟨0, 2, "Unidig1"⟩⟩, 1⟩ 0 []).2
      = (0, [Event.sendReply ⟨1, 4, 0, 0⟩, Event.sendReply ⟨1, 4, 0, 0⟩]) := by
  decide

/-- C5, amended: `BoIpUnidig::startIO` keeps no pending request and checks
nothing.  A second call made before the completion of the first is carried out
like any other: it appends one more `sendReply` to the log the first call left,
so two messages have been sent, and it returns the status of `sendReply`. -/
theorem C5_second_startIO_sends_again (E : Env) (self : BoIpUnidig) (bo bo2 : BoRecord)
    (rc1 rc2 : Int) (log : List Event) :
    sends ( BoIpUnidig.startIO E self bo2 rc2 ( BoIpUnidig.startIO E self bo rc1 log).2).2
      = sends log + 2
    ∧ ( BoIpUnidig.startIO E self bo2 rc2 ( BoIpUnidig.startIO E self bo rc1 log).2).1 = rc2
    ∧ ( BoIpUnidig.startIO E self bo2 rc2 ( BoIpUnidig.startIO E self bo rc1 log).2).2
        = log ++
          [Event.sendReply { E.newInt32Message with
              cmd := if bo.val = 0 then E.cmdClearBits else E.cmdSetBits,
              address := toInt32 self.mask },
            Event.sendReply { E.newInt32Message with
              cmd := if bo2.val = 0 then E.cmdClearBits else E.cmdSetBits,
              address := toInt32 self.mask }] := by
  refine ⟨?_, rfl, ?_⟩
  · simp [BoIpUnidig.startIO, sends_append, sends]
  · by_cases h1 : bo.val = 0 <;> by_cases h2 : bo2.val = 0 <;>
      simp [BoIpUnidig.startIO, h1, h2]

/-! ## C6 -/

/-- C6: for a bit index `b` in 0..23, the writer that `BoIpUnidig::BoIpUnidig`
builds from an OUT link with signal `b` has mask `1 << b` and is built without
complaint, and `BoIpUnidig::startIO` on it sends exactly one message: its address
is `1 << b` and its command is `cmdClearBits` when val of the record is 0 and
`cmdSetBits` otherwise. -/
theorem C6_startIO_sends_mask_and_command (E : Env) (l : Link) (bo : BoRecord) (b : Nat)
    (rc : Int) (log0 log : List Event) (hb : b ≤ 23) (hsig : l.value.signal = (b : Int)) :
    ( BoIpUnidig.construct E l log0) = (⟨1 <<< b⟩, log0)
    ∧ BoIpUnidig.startIO E ( BoIpUnidig.construct E l log0).1 bo rc log
        = (rc, log ++ [Event.sendReply { E.newInt32Message with
              cmd := if bo.val = 0 then E.cmdClearBits else E.cmdSetBits,
              address := ((1 <<< b : Nat) : Int) }])
    ∧ sends ( BoIpUnidig.startIO E ( BoIpUnidig.construct E l log0).1 bo rc log).2
        = sends log + 1 := by
  have hrange : ¬ (((b : Int) < 0) ∨ ((b : Int) > 23)) := by omega
  have hc : ( BoIpUnidig.construct E l log0) = (⟨1 <<< b⟩, log0) := by
    simp only [BoIpUnidig.construct, hsig, hrange, if_false, shl1_of_le E b hb]
  refine ⟨hc, ?_, ?_⟩
  · rw [hc]
    by_cases h : bo.val = 0 <;>
      simp [BoIpUnidig.startIO, h, toInt32_one_shiftLeft b hb]
  · simp [BoIpUnidig.startIO, sends_append, sends]

/-- C6 at mask 0x4 (signal 2) with the desired bit true: the message sent is
the set-bits command with address 0x4. -/
theorem C6_startIO_sends_mask_and_command_witness :
    BoIpUnidig.startIO sampleEnv
        ( BoIpUnidig.construct sampleEnv ⟨ VME_IO, ⟨0, 2, "Unidig1"⟩⟩ []).1
        ⟨quietCommon, ⟨ VME_IO, ⟨0, 2, "Unidig1"⟩⟩, 1⟩ 0 []
      = (0, [Event.sendReply ⟨sampleEnv.cmdSetBits, 4, 0, 0⟩]) :=
  (C6_startIO_sends_mask_and_command sampleEnv ⟨ VME_IO, ⟨0, 2, "Unidig1"⟩⟩
    ⟨quietCommon, ⟨ VME_IO, ⟨0, 2, "Unidig1"⟩⟩, 1⟩ 2 0 [] [] (by decide) rfl).2.1

/-! ## C7 -/

/-- C7: when the signal of the INP link is outside 0..23, `bi_init_record` on a
record whose dpvt is unset reports one error with `epicsPrintf`, leaves dpvt
unset and sets pact; then `bi_ioint_info` returns without assigning a scan list
and `bi_read` returns the record as it was, rval and all alarm fields included. -/
theorem C7_bad_bit_disables_reader (dbNameToAddr : String → Option Nat) (mem : Memory)
    (pr : BiRecord) (log : List Event) (cmd : Int) (iopvt : Option Nat)
    (hfresh : pr.dpvt = none) (hbit : pr.inp.value.signal < 0 ∨ pr.inp.value.signal > 23) :
    (bi_init_record dbNameToAddr pr log).2.1.dpvt = none
    ∧ (bi_init_record dbNameToAddr pr log).2.1.common.pact = true
    ∧ (∃ d, (bi_init_record dbNameToAddr pr log).2.2 = log ++ [Event.epicsPrintf d])
    ∧ bi_ioint_info mem cmd (bi_init_record dbNameToAddr pr log).2.1 iopvt = some (0, iopvt)
    ∧ bi_read mem (bi_init_record dbNameToAddr pr log).2.1
        = (0, (bi_init_record dbNameToAddr pr log).2.1)
    ∧ (bi_read mem (bi_init_record dbNameToAddr pr log).2.1).2.rval = pr.rval
    ∧ (bi_read mem (bi_init_record dbNameToAddr pr log).2.1).2.common
        = { pr.common with pact := true } := by
  have hinit : ∃ d, bi_init_record dbNameToAddr pr log
      = (0, { pr with common := { pr.common with pact := true } },
          log ++ [Event.epicsPrintf d]) := by
    unfold bi_init_record
    by_cases ht : pr.inp.type = VME_IO
    · cases hr : dbNameToAddr pr.inp.value.parm with
      | none => exact ⟨Diag.cantLocateLongin, by simp [ht, hr]⟩
      | some a => exact ⟨Diag.illegalInpBit pr.inp.value.signal, by simp [ht, hr, hbit]⟩
    · exact ⟨Diag.illegalInpField, by simp [ht]⟩
  obtain ⟨d, hd⟩ := hinit
  rw [hd]
  refine ⟨hfresh, rfl, ⟨d, rfl⟩, ?_, ?_, ?_, ?_⟩
  · simp [bi_ioint_info, hfresh]
  · simp [bi_read, hfresh]
  · simp [bi_read, hfresh]
  · simp [bi_read, hfresh]

/-- C7 at bit index 30: the record is left without dpvt and with pact set. -/
theorem C7_bad_bit_disables_reader_witness :
    (bi_init_record (fun _ => some 7) ⟨quietCommon, ⟨ VME_IO, ⟨0, 30, "Unidig1"⟩⟩, 0, none⟩ []).2.1.dpvt
      = none
    ∧ (bi_init_record (fun _ => some 7)
        ⟨quietCommon, ⟨ VME_IO, ⟨0, 30, "Unidig1"⟩⟩, 0, none⟩ []).2.1.common.pact = true :=
  ⟨(C7_bad_bit_disables_reader (fun _ => some 7) (fun _ => ⟨quietCommon, 5, some ⟨some 1⟩⟩)
      ⟨quietCommon, ⟨ VME_IO, ⟨0, 30, "Unidig1"⟩⟩, 0, none⟩ [] 0 none rfl (by decide)).1,
   (C7_bad_bit_disables_reader (fun _ => some 7) (fun _ => ⟨quietCommon, 5, some ⟨some 1⟩⟩)
      ⟨quietCommon, ⟨ VME_IO, ⟨0, 30, "Unidig1"⟩⟩, 0, none⟩ [] 0 none rfl (by decide)).2.1⟩

/-! ## C8 -/

/-- C8 on the code: with OUT signal 30 the constructor `BoIpUnidig::BoIpUnidig`
prints the error and still yields a writer, with mask `1 << 30`; a later
`BoIpUnidig::startIO` on that writer sends a command message with that mask. -/
theorem C8_bad_signal_writer_still_sends (E : Env) (bo : BoRecord) (rc : Int)
    (log0 log : List Event) :
    BoIpUnidig.construct E ⟨ VME_IO, ⟨0, 30, "Unidig1"⟩⟩ log0
      = (⟨1073741824⟩, log0 ++ [Event.epicsPrintf (Diag.illegalOutSignal 30)])
    ∧ BoIpUnidig.startIO E ( BoIpUnidig.construct E ⟨ VME_IO, ⟨0, 30, "Unidig1"⟩⟩ log0).1 bo rc log
      = (rc, log ++ [Event.sendReply { E.newInt32Message with
            cmd := if bo.val = 0 then E.cmdClearBits else E.cmdSetBits,
            address := 1073741824 }])
    ∧ sends ( BoIpUnidig.startIO E
        ( BoIpUnidig.construct E ⟨ VME_IO, ⟨0, 30, "Unidig1"⟩⟩ log0).1 bo rc log).2
      = sends log + 1 := by
  have hc : BoIpUnidig.construct E ⟨ VME_IO, ⟨0, 30, "Unidig1"⟩⟩ log0
      = (⟨1073741824⟩, log0 ++ [Event.epicsPrintf (Diag.illegalOutSignal 30)]) := by
    simp [BoIpUnidig.construct, shl1]
  refine ⟨hc, ?_, ?_⟩
  · rw [hc]
    by_cases h : bo.val = 0 <;> simp [BoIpUnidig.startIO, h, toInt32]
  · simp [BoIpUnidig.startIO, sends_append, sends]

/-! ## C9 -/

/-- C9, as stated, fails.  A longin record without alarm receives a completion
with status 1.  `LiIpUnidig::completeIO` signals the fan-out once, and in the
record as it stands at that `scanIoRequest` the published alarm
(`stat`, `sevr`), the pair a dependent copies in `bi_read`, is still (0, 0) and
not (READ_ALARM, INVALID_ALARM): only the pending alarm has been raised.  A bi
record that reads the owner as it stands at the signal keeps all its alarm
fields at 0. -/
theorem C9_counterexample :
    ( LiIpUnidig.completeIO ⟨some 1⟩ ⟨quietCommon, 5, none⟩ ⟨0, 0, 0, 1⟩ []).2.2
      = [Event.scanIoRequest (some 1) ⟨⟨false, 0, 0, 0, 1, 3⟩, 5, none⟩,
          Event.deleteMessage ⟨0, 0, 0, 1⟩]
    ∧ ((⟨⟨false, 0, 0, 0, 1, 3⟩, 5, none⟩ : LonginRecord).common.stat,
        (⟨⟨false, 0, 0, 0, 1, 3⟩, 5, none⟩ : LonginRecord).common.sevr)
        ≠ (READ_ALARM, INVALID_ALARM)
    ∧ (bi_read (fun _ => ⟨⟨false, 0, 0, 0, 1, 3⟩, 5, none⟩)
        ⟨quietCommon, ⟨ VME_IO, ⟨0, 0, "Unidig1"⟩⟩, 0, some ⟨1, 7⟩⟩).2.common = quietCommon := by
  decide

/-- C9, amended: for every completion, OK or not, `LiIpUnidig::completeIO`
appends to the log exactly one `scanIoRequest`, on the scan list of the owner,
followed by the deletion of the message.  In the record as it stands at that
signal val is already the value of the message when the status is 0; when the
status is not 0, val is unchanged and the pending alarm (`nsta`, `nsev`) is
already (READ_ALARM, INVALID_ALARM) if the pending severity was below
INVALID_ALARM, and is left as it was otherwise.  The published alarm
(`stat`, `sevr`) at the signal is still the one from before the call, so a bi
record that reads the owner as it stands at the signal gets `recGblSetSevr` with
the old published pair. -/
theorem C9_notify_once_after_val_and_pending_alarm (self : LiIpUnidig) (li : LonginRecord)
    (pim : Int32Message) (log : List Event) :
    ( LiIpUnidig.completeIO self li pim log).2.2
      = log ++ [Event.scanIoRequest self.ioscanpvt ( LiIpUnidig.completeIO self li pim log).2.1,
          Event.deleteMessage pim]
    ∧ scanRequests ( LiIpUnidig.completeIO self li pim log).2.2 = scanRequests log + 1
    ∧ (pim.status = 0 →
        ( LiIpUnidig.completeIO self li pim log).2.1.val = pim.value
        ∧ ( LiIpUnidig.completeIO self li pim log).2.1.common = { li.common with udf := 0 })
    ∧ (pim.status ≠ 0 →
        ( LiIpUnidig.completeIO self li pim log).2.1.val = li.val
        ∧ (li.common.nsev < INVALID_ALARM →
            ( LiIpUnidig.completeIO self li pim log).2.1.common
              = { li.common with nsta := READ_ALARM, nsev := INVALID_ALARM })
        ∧ (¬ li.common.nsev < INVALID_ALARM →
            ( LiIpUnidig.completeIO self li pim log).2.1.common = li.common))
    ∧ ( LiIpUnidig.completeIO self li pim log).2.1.common.stat = li.common.stat
    ∧ ( LiIpUnidig.completeIO self li pim log).2.1.common.sevr = li.common.sevr
    ∧ (∀ (mem : Memory) (bi : BiRecord) (pvt : DevPvt), bi.dpvt = some pvt →
        mem pvt.pli = ( LiIpUnidig.completeIO self li pim log).2.1 →
        (bi_read mem bi).2.common
          = { recGblSetSevr bi.common li.common.stat li.common.sevr with udf := 0 })
    ∧ ( LiIpUnidig.completeIO self li pim log).1 = pim.status := by
  have hstat : ( LiIpUnidig.completeIO self li pim log).2.1.common.stat = li.common.stat := by
    by_cases h : pim.status = 0
    · simp [LiIpUnidig.completeIO, h]
    · simp only [LiIpUnidig.completeIO, h, if_false, recGblSetSevr]; split <;> rfl
  have hsevr : ( LiIpUnidig.completeIO self li pim log).2.1.common.sevr = li.common.sevr := by
    by_cases h : pim.status = 0
    · simp [LiIpUnidig.completeIO, h]
    · simp only [LiIpUnidig.completeIO, h, if_false, recGblSetSevr]; split <;> rfl
  refine ⟨?_, ?_, ?_, ?_, hstat, hsevr, ?_, rfl⟩
  · simp [LiIpUnidig.completeIO]
  · simp [LiIpUnidig.completeIO, scanRequests_append, scanRequests]
  · intro h
    simp [LiIpUnidig.completeIO, h]
  · intro h
    refine ⟨by simp [LiIpUnidig.completeIO, h], ?_, ?_⟩
    · intro hn
      simp [LiIpUnidig.completeIO, h, recGblSetSevr, hn]
    · intro hn
      simp [LiIpUnidig.completeIO, h, recGblSetSevr, hn]
  · intro mem bi pvt hpvt hmem
    have hb : (bi_read mem bi).2.common
        = { recGblSetSevr bi.common (mem pvt.pli).common.stat (mem pvt.pli).common.sevr
            with udf := 0 } := by
      simp [bi_read, hpvt]
    rw [hb, hmem, hstat, hsevr]

/-! ## C10 -/

/-- C10, as stated, fails.  A bo record in alarm (READ_ALARM, INVALID_ALARM),
published and pending, receives a completion with status 0:
`BoIpUnidig::completeIO` returns 0 and clears udf, and every alarm field is
still what it was, so no alarm has been cleared. -/
theorem C10_counterexample :
    BoIpUnidig.completeIO ⟨4⟩ ⟨⟨true, 1, 1, 3, 1, 3⟩, ⟨ VME_IO, ⟨0, 2, "Unidig1"⟩⟩, 1⟩ ⟨0, 0, 0, 0⟩ []
      = (0, ⟨⟨true, 0, 1, 3, 1, 3⟩, ⟨ VME_IO, ⟨0, 2, "Unidig1"⟩⟩, 1⟩,
          [Event.deleteMessage ⟨0, 0, 0, 0⟩])
    ∧ ( BoIpUnidig.completeIO ⟨4⟩ ⟨⟨true, 1, 1, 3, 1, 3⟩, ⟨ VME_IO, ⟨0, 2, "Unidig1"⟩⟩, 1⟩
        ⟨0, 0, 0, 0⟩ []).2.1.common.sevr = INVALID_ALARM
    ∧ ( BoIpUnidig.completeIO ⟨4⟩ ⟨⟨true, 1, 1, 3, 1, 3⟩, ⟨ VME_IO, ⟨0, 2, "Unidig1"⟩⟩, 1⟩
        ⟨0, 0, 0, 0⟩ []).2.1.common.nsev = INVALID_ALARM := by
  decide

/-- C10, amended: for every completion delivered to `BoIpUnidig::completeIO`,
when the status is 0 the call clears udf, leaves every alarm field of the record
(`stat`, `sevr`, `nsta`, `nsev`) as it was and returns 0; otherwise it applies
`recGblSetSevr` with (READ_ALARM, INVALID_ALARM), which makes that pair the
pending alarm whenever the pending severity was below INVALID_ALARM, and returns
the status, which is not 0.  In both cases the message is deleted, nothing is
sent and pact is not written. -/
theorem C10_completeIO_status_and_alarm (self : BoIpUnidig) (bo : BoRecord) (pim : Int32Message)
    (log : List Event) :
    (pim.status = 0 →
      BoIpUnidig.completeIO self bo pim log
        = (0, { bo with common := { bo.common with udf := 0 } },
            log ++ [Event.deleteMessage pim]))
    ∧ (pim.status ≠ 0 →
      BoIpUnidig.completeIO self bo pim log
        = (pim.status, { bo with common := recGblSetSevr bo.common READ_ALARM INVALID_ALARM },
            log ++ [Event.deleteMessage pim])
      ∧ ( BoIpUnidig.completeIO self bo pim log).2.1.common.stat = bo.common.stat
      ∧ ( BoIpUnidig.completeIO self bo pim log).2.1.common.sevr = bo.common.sevr
      ∧ (bo.common.nsev < INVALID_ALARM →
          ( BoIpUnidig.completeIO self bo pim log).2.1.common.nsta = READ_ALARM
          ∧ ( BoIpUnidig.completeIO self bo pim log).2.1.common.nsev = INVALID_ALARM))
    ∧ sends ( BoIpUnidig.completeIO self bo pim log).2.2 = sends log
    ∧ ( BoIpUnidig.completeIO self bo pim log).2.1.common.pact = bo.common.pact := by
  refine ⟨?_, ?_, ?_, ?_⟩
  · intro h
    simp [BoIpUnidig.completeIO, h]
  · intro h
    refine ⟨by simp [BoIpUnidig.completeIO, h], ?_, ?_, ?_⟩
    · simp only [BoIpUnidig.completeIO, h, if_false, recGblSetSevr]; split <;> rfl
    · simp only [BoIpUnidig.completeIO, h, if_false, recGblSetSevr]; split <;> rfl
    · intro hn
      simp [BoIpUnidig.completeIO, h, recGblSetSevr, hn]
  · simp [BoIpUnidig.completeIO, sends_append, sends]
  · by_cases h : pim.status = 0
    · simp [BoIpUnidig.completeIO, h]
    · simp only [BoIpUnidig.completeIO, h, if_false, recGblSetSevr]; split <;> rfl

end IpUnidig
